import Mathlib

/-
Verification of the traffic-capture repository's core behaviors, formalized
over a shallow embedding of the Python sources (src/src/database_manager.py,
src/src/traffic_capture.py, src/src/traffic_analyzer.py).

Strings from the Python side are modeled as `List Char`; machine integers are
`Nat`/`Int`; code that can raise is modeled with `Option` (a caught exception
that yields a sentinel becomes `none`).
-/

set_option maxRecDepth 4096

namespace Traffic

/-! ## Basic character/list helpers used by the embeddings -/

/-- Membership test for a character in a string, modeling Python `c in s`. -/
def hasChar (c : Char) : List Char → Bool
  | [] => false
  | x :: rest => x = c || hasChar c rest

/-- Decimal digit characters. Used to characterize the output of `str(int)`. -/
def isDecDigitB (c : Char) : Bool :=
  c = '0' || c = '1' || c = '2' || c = '3' || c = '4' ||
  c = '5' || c = '6' || c = '7' || c = '8' || c = '9'

/-- Character of a single decimal digit, as produced by Python `str` on ints. -/
def decDigitChar (m : Nat) : Char :=
  match m with
  | 0 => '0' | 1 => '1' | 2 => '2' | 3 => '3' | 4 => '4'
  | 5 => '5' | 6 => '6' | 7 => '7' | 8 => '8' | _ => '9'

/-- Numeric value of a decimal digit character. -/
def decDigitVal (c : Char) : Nat := c.toNat - 48

/-- Value of a big-endian decimal digit string. -/
def decValue (cs : List Char) : Nat :=
  cs.foldl (fun a c => 10 * a + decDigitVal c) 0

/-- Little-endian digit expansion of a natural number (empty for 0). -/
def natToRevDigits (n : Nat) : List Char :=
  if h : n = 0 then []
  else decDigitChar (n % 10) :: natToRevDigits (n / 10)
decreasing_by exact Nat.div_lt_self (Nat.pos_of_ne_zero h) (by omega)

/-- Decimal rendering of a natural number, modeling Python `str` on a
nonnegative int. -/
def natToDec (n : Nat) : List Char :=
  if n = 0 then ['0'] else (natToRevDigits n).reverse

/-! ## Embedding of Python `int()` on the strings relevant here

`int(s)` strips surrounding whitespace, accepts an optional sign, and then a
nonempty run of decimal digits with optional single underscores between
digits; anything else raises `ValueError` (modeled as `none`). This models
the ASCII decimal forms of the builtin. -/

/-- Strip leading and trailing whitespace, modeling `str.strip()`. -/
def pyTrim (cs : List Char) : List Char :=
  ((cs.dropWhile Char.isWhitespace).reverse.dropWhile Char.isWhitespace).reverse

/-- Tail of a digit run: `('_'? digit)*` with underscores only between digits. -/
def pyDigitsTail : List Char → Bool
  | [] => true
  | c :: rest =>
    if c = '_' then
      match rest with
      | [] => false
      | d :: rest2 => d.isDigit && pyDigitsTail rest2
    else c.isDigit && pyDigitsTail rest

/-- Parse a nonempty digit run (with legal underscores) into its value. -/
def pyIntDigits (cs : List Char) : Option Nat :=
  match cs with
  | [] => none
  | c :: rest =>
    if c.isDigit && pyDigitsTail rest then
      some (decValue (cs.filter (fun x => x ≠ '_')))
    else none

/-- Model of Python `int(s)` for ASCII decimal strings. -/
def pyInt? (cs : List Char) : Option Int :=
  match pyTrim cs with
  | [] => none
  | c :: rest =>
    if c = '-' then (pyIntDigits rest).map (fun n => -(n : Int))
    else if c = '+' then (pyIntDigits rest).map (fun n => ((n : Nat) : Int))
    else (pyIntDigits (c :: rest)).map (fun n => ((n : Nat) : Int))

/-! ## Connection keys (database_manager.create_connection_key /
parse_connection_key) -/

/-- One side of a key: `[ip]:port` when the address contains a colon (IPv6),
else `ip:port`. Mirrors the f-strings in `create_connection_key`. -/
def keyPart (ip : List Char) (port : Nat) : List Char :=
  if hasChar ':' ip then '[' :: (ip ++ ']' :: ':' :: natToDec port)
  else ip ++ ':' :: natToDec port

/-- Embedding of `DatabaseManager.create_connection_key`. -/
def create_connection_key (srcIp dstIp : List Char) (srcPort dstPort : Nat) :
    List Char :=
  keyPart srcIp srcPort ++ '-' :: '>' :: keyPart dstIp dstPort

/-- Prepend a character to the first piece of a split result. -/
def consHead (c : Char) : List (List Char) → List (List Char)
  | [] => [[c]]
  | p :: ps => (c :: p) :: ps

/-- Python `s.split('->')` for the two-character separator: splits at every
non-overlapping occurrence, scanning left to right. -/
def splitArrow : List Char → List (List Char)
  | [] => [[]]
  | [c] => [[c]]
  | c :: d :: rest =>
    if c = '-' ∧ d = '>' then [] :: splitArrow rest
    else consHead c (splitArrow (d :: rest))

/-- Whether the separator `->` occurs anywhere in the string. -/
def hasArrow : List Char → Bool
  | [] => false
  | [_] => false
  | c :: d :: rest => (c = '-' && d = '>') || hasArrow (d :: rest)

/-- Python `part.find(c)` restricted to the found case: index of the first
occurrence (returns the length when absent; callers guard on presence). -/
def pyFind (c : Char) : List Char → Nat
  | [] => 0
  | x :: rest => if x = c then 0 else pyFind c rest + 1

/-- Python slice `l[i:j]` for nonnegative indices. -/
def pySlice (l : List Char) (i j : Nat) : List Char := (l.take j).drop i

/-- Python `part.rsplit(':', 1)` unpacked into two pieces: splits at the last
colon; raises (here `none`) when no colon is present. -/
def rsplitColon (part : List Char) : Option (List Char × List Char) :=
  match part.reverse.dropWhile (fun c => c ≠ ':') with
  | [] => none
  | _ :: ipRev =>
    some (ipRev.reverse, (part.reverse.takeWhile (fun c => c ≠ ':')).reverse)

/-- One side of `parse_connection_key`: the bracketed (IPv6) extraction when
both brackets are present, otherwise the `rsplit(':', 1)` path. -/
def parseKeyPart (part : List Char) : Option (List Char × List Char) :=
  if hasChar '[' part && hasChar ']' part then
    some (pySlice part (pyFind '[' part + 1) (pyFind ']' part),
          part.drop (pyFind ']' part + 2))
  else rsplitColon part

/-- Embedding of `DatabaseManager.parse_connection_key`. All exceptions in
the source are caught and turned into the sentinel `(None, None, None, None)`,
modeled as `none`; an unparsable port substring sets both ports to 0. -/
def parse_connection_key (key : List Char) :
    Option (List Char × List Char × Int × Int) :=
  match splitArrow key with
  | [srcPart, dstPart] =>
    match parseKeyPart srcPart, parseKeyPart dstPart with
    | some (srcIp, srcPortStr), some (dstIp, dstPortStr) =>
      match pyInt? srcPortStr, pyInt? dstPortStr with
      | some sp, some dp => some (srcIp, dstIp, sp, dp)
      | _, _ => some (srcIp, dstIp, 0, 0)
    | _, _ => none
  | _ => none

/-- Characters that can appear in a textual IPv4 or IPv6 address: hex digits,
the IPv4 dot, and the IPv6 group separator. -/
def isIpChar (c : Char) : Bool :=
  c.isDigit || ('a' ≤ c && c ≤ 'f') || ('A' ≤ c && c ≤ 'F') || c = '.' || c = ':'

/-- Validity of an address for the round-trip property: nonempty and drawn
from the character sets of the two address families. -/
def validIp (ip : List Char) : Prop :=
  ip ≠ [] ∧ ∀ c ∈ ip, isIpChar c = true

/-! ## Alert attribution (traffic_analyzer.analyze_traffic)

`analyze_traffic` extracts every IPv4 address in a rule's raw alert text with
`re.findall(r'(\d+\.\d+\.\d+\.\d+)')` and then picks "the" malicious address
by phrase matching on the text. -/

/-- Substring prefix test over character lists. -/
def isPrefixOfL : List Char → List Char → Bool
  | [], _ => true
  | _ :: _, [] => false
  | c :: cs, d :: ds => c = d && isPrefixOfL cs ds

/-- Python `needle in hay` substring containment. -/
def containsSub (needle : List Char) : List Char → Bool
  | [] => isPrefixOfL needle []
  | hay@(_ :: rest) => isPrefixOfL needle hay || containsSub needle rest

/-- Match `\d+` greedily at the head: the maximal digit run and the rest. -/
def matchDigits (cs : List Char) : Option (List Char × List Char) :=
  let ds := cs.takeWhile Char.isDigit
  if ds.isEmpty then none else some (ds, cs.drop ds.length)

/-- Match `\d+\.\d+\.\d+\.\d+` at the head of the list. Greedy matching of
each digit run is exact here because a digit run can never be followed by a
digit, so no backtracking arises. -/
def matchIPv4 (cs : List Char) : Option (List Char × List Char) :=
  match matchDigits cs with
  | none => none
  | some (d1, r1) =>
    match r1 with
    | '.' :: r1b =>
      match matchDigits r1b with
      | none => none
      | some (d2, r2) =>
        match r2 with
        | '.' :: r2b =>
          match matchDigits r2b with
          | none => none
          | some (d3, r3) =>
            match r3 with
            | '.' :: r3b =>
              match matchDigits r3b with
              | none => none
              | some (d4, r4) =>
                some (d1 ++ '.' :: d2 ++ '.' :: d3 ++ '.' :: d4, r4)
            | _ => none
        | _ => none
    | _ => none

/-- `re.findall(r'(\d+\.\d+\.\d+\.\d+)', s)`: leftmost non-overlapping
matches, scanning forward one character on failure. Fueled by the input
length, which always suffices since a match consumes at least one char. -/
def findIPv4s (cs : List Char) : List (List Char) :=
  go cs.length cs
where
  go : Nat → List Char → List (List Char)
    | 0, _ => []
    | _ + 1, [] => []
    | fuel + 1, c :: rest =>
      match matchIPv4 (c :: rest) with
      | some (ip, rest2) => ip :: go fuel rest2
      | none => go fuel rest

def phraseConnFrom : List Char := "Malicious IP detected in connection from".data

def phraseFromMalicious : List Char := "from Malicious IP".data

def phraseFromSuspicious : List Char := "from suspicious IP".data

def phraseVirusTotal : List Char := "VirusTotal".data

/-- Embedding of the malicious-IP attribution block of
`analyze_traffic` (traffic_analyzer.py lines 1535-1560): with at least two
addresses the first is `src_ip` and the second `dst_ip`; phrase patterns pick
between them, defaulting to the first; a single address is used directly;
with no address the alert has no attributed IP (`malicious_ip` stays None). -/
def identify_malicious_ip (alert : List Char) : Option (List Char) :=
  match findIPv4s alert with
  | srcIp :: dstIp :: _ =>
    if containsSub phraseConnFrom alert then some dstIp
    else if containsSub phraseFromMalicious alert ||
            containsSub phraseFromSuspicious alert then some srcIp
    else if containsSub phraseVirusTotal alert then some dstIp
    else some srcIp
  | [onlyIp] => some onlyIp
  | [] => none

/-! ## Alert pipeline state (traffic_analyzer.analyze_traffic,
IPManager.mark_as_false_positive, traffic_capture alerts_by_ip) -/

/-- Lowercasing used by the notification keyword check (`alert.lower()`). -/
def toLowerL (cs : List Char) : List Char := cs.map Char.toLower

/-- The "severe" keyword heuristic guarding the tray notification:
`'malicious' in alert.lower() or 'virustotal' in alert.lower()`. -/
def severeAlert (alert : List Char) : Bool :=
  containsSub "malicious".data (toLowerL alert) ||
  containsSub "virustotal".data (toLowerL alert)

/-- In-memory pipeline state shared by the rule engine: the process-wide
false-positive IP set, the per-IP dedup sets (`alerts_by_ip`, a
defaultdict(set)), the FIFO alert queue handed to the alert worker, and the
list of tray notifications shown. Queue/notification entries are
`(ip, message, rule_name)`. -/
structure PipelineState where
  false_positives : List (List Char)
  alerts_by_ip : List (List Char × List (List Char))
  alert_queue : List (List Char × List Char × List Char)
  notified : List (List Char × List Char × List Char)
deriving DecidableEq, Repr

/-- `alerts_by_ip[ip]` with defaultdict semantics: missing keys read as the
empty set. -/
def lookupSet (m : List (List Char × List (List Char))) (k : List Char) :
    List (List Char) :=
  match m with
  | [] => []
  | (k2, v) :: rest => if k2 = k then v else lookupSet rest k

/-- `alerts_by_ip[ip].add(msg)`. -/
def insertSet (m : List (List Char × List (List Char))) (k v : List Char) :
    List (List Char × List (List Char)) :=
  (k, v :: lookupSet m k) :: m.filter (fun p => p.1 ≠ k)

/-- Embedding of the per-alert body of `analyze_traffic` (lines 1562-1578):
attribute an IP; drop the alert if that IP is a known false positive;
otherwise dedup against the in-memory per-IP set, and on first occurrence
record it, enqueue it on the alert queue, and notify when severe. -/
def analyze_traffic_step (st : PipelineState) (ruleName alertText : List Char) :
    PipelineState :=
  match identify_malicious_ip alertText with
  | none => st
  | some ip =>
    if ip ∈ st.false_positives then st
    else if alertText ∈ lookupSet st.alerts_by_ip ip then st
    else
      { st with
        alerts_by_ip := insertSet st.alerts_by_ip ip alertText
        alert_queue := st.alert_queue ++ [(ip, alertText, ruleName)]
        notified :=
          if severeAlert alertText then st.notified ++ [(ip, alertText, ruleName)]
          else st.notified }

/-- Embedding of `IPManager.mark_as_false_positive`: a nonempty IP is added
to the in-memory set (and the set persisted, not modeled here). -/
def mark_as_false_positive (st : PipelineState) (ip : List Char) :
    PipelineState :=
  if ip = [] then st
  else { st with false_positives := ip :: st.false_positives }

/-- The operations of the modeled alert pipeline: marking an IP as a false
positive, and processing one raw alert text returned by a rule. -/
inductive PipelineEvent where
  | mark (ip : List Char)
  | alert (ruleName text : List Char)
deriving DecidableEq, Repr

def pipelineStep (st : PipelineState) : PipelineEvent → PipelineState
  | .mark ip => mark_as_false_positive st ip
  | .alert r t => analyze_traffic_step st r t

def run_pipeline (st : PipelineState) : List PipelineEvent → PipelineState
  | [] => st
  | e :: es => run_pipeline (pipelineStep st e) es

/-- Process start: empty false-positive set (file absent), empty dedup sets,
empty queue, nothing notified. -/
def initPipeline : PipelineState := ⟨[], [], [], []⟩

/-- Number of queue/notification entries carrying a given (ip, message). -/
def countPair (l : List (List Char × List Char × List Char))
    (ip m : List Char) : Nat :=
  (l.filter (fun e => e.1 = ip ∧ e.2.1 = m)).length

/-- The entries of a queue/notification list attributed to a given IP. -/
def entriesForIp (l : List (List Char × List Char × List Char))
    (ip : List Char) : List (List Char × List Char × List Char) :=
  l.filter (fun e => e.1 = ip)

/-! ## Decoder accumulation buffer (traffic_capture.capture_packets)

The decode loop appends each stripped nonempty line plus a newline to a
string buffer, extracts complete EK objects, trims the buffer to its last
1000 characters once objects were extracted, and finally discards the buffer
entirely whenever it exceeds 10,000,000 characters. Whether
`extract_ek_objects` finds objects depends on JSON validity of the buffered
lines; the bound below holds for every possible outcome, so that check is
abstracted as an arbitrary predicate `foundObjects`. -/

/-- Python `buffer[-1000:]`. -/
def lastN (n : Nat) (l : List Char) : List Char := l.drop (l.length - n)

/-- Buffer content after appending one line and applying the post-extraction
trim, before the 10MB check. -/
def bufAccum (foundObjects : List Char → Bool) (buffer line : List Char) :
    List Char :=
  if foundObjects (buffer ++ line ++ ['\n']) then
    if 1000 < (buffer ++ line ++ ['\n']).length then
      lastN 1000 (buffer ++ line ++ ['\n'])
    else buffer ++ line ++ ['\n']
  else buffer ++ line ++ ['\n']

/-- One iteration of the decode loop for a stripped input line: empty lines
are skipped; otherwise accumulate, and reset to empty when the 10MB bound is
exceeded. -/
def capture_packets_step (foundObjects : List Char → Bool)
    (buffer line : List Char) : List Char :=
  if line = [] then buffer
  else if 10000000 < (bufAccum foundObjects buffer line).length then []
  else bufAccum foundObjects buffer line

/-- The decode loop over a stream of stripped lines, starting from the empty
buffer of `capture_packets`. -/
def capture_packets_buffer (foundObjects : List Char → Bool)
    (lines : List (List Char)) : List Char :=
  lines.foldl (capture_packets_step foundObjects) []

/-! ## Dual-store synchronization (database_manager.sync_databases)

Rows are modeled with an integer primary key, a timestamp, and an opaque
payload; `INSERT OR REPLACE` keyed by the primary key replaces any existing
row with the same key. Timestamps are modeled by an ordered type (`Nat`),
covering both the numeric-epoch branch and the text-datetime branch of the
source, whose comparisons agree with chronological order. A table records
whether its schema has a `timestamp` column. Per-table replication errors
are caught by the source's inner `except` and merely skip that table, which
is modeled by the `tableFails` parameter (a failed table contributes
nothing); the pass still commits. -/

structure Row where
  pk : Nat
  ts : Nat
  payload : Nat
deriving DecidableEq, Repr

abbrev Table := List Row

/-- `INSERT OR REPLACE` of one row, keyed by primary key. -/
def upsertRow (t : Table) (r : Row) : Table :=
  r :: t.filter (fun x => x.pk ≠ r.pk)

/-- `INSERT OR REPLACE` of a list of fetched rows, in order. -/
def insertRows (t : Table) (rs : List Row) : Table :=
  rs.foldl upsertRow t

/-- `SELECT MAX(timestamp) FROM t` with the source's `or 0` default. -/
def maxTs (t : Table) : Nat := t.foldr (fun r m => max r.ts m) 0

/-- Primary keys of a table. -/
def rowPks (t : Table) : List Nat := t.map (·.pk)

structure STable where
  hasTimestamp : Bool
  rows : Table
deriving DecidableEq, Repr

/-- A store: tables by name (sqlite_master names are unique). -/
abbrev Store := List (String × STable)

def setTable (s : Store) (n : String) (t : STable) : Store :=
  (n, t) :: s.filter (fun p => p.1 ≠ n)

/-- `SELECT * FROM t WHERE timestamp > ?` with `?` bound to the destination
table's current maximum timestamp. -/
def selectNewRows (cap ana : Table) : Table :=
  cap.filter (fun r => maxTs ana < r.ts)

/-- Replication of one capture table into the analysis store, given the
destination table as currently present there (`none` when missing):
a missing table is created and fully copied; `arp_data` is cleared and fully
reinserted; a table whose capture schema has a `timestamp` column is synced
incrementally past the destination's max timestamp; other tables are fully
copied with `INSERT OR REPLACE`. -/
def syncTableResult (name : String) (capT : STable) (old : Option STable) :
    STable :=
  match old with
  | none => ⟨capT.hasTimestamp, insertRows [] capT.rows⟩
  | some anaT =>
    if name = "arp_data" then ⟨anaT.hasTimestamp, insertRows [] capT.rows⟩
    else if capT.hasTimestamp then
      ⟨anaT.hasTimestamp, insertRows anaT.rows (selectNewRows capT.rows anaT.rows)⟩
    else ⟨anaT.hasTimestamp, insertRows anaT.rows capT.rows⟩

def sync_table (name : String) (capT : STable) (ana : Store) : Store :=
  setTable ana name (syncTableResult name capT (ana.lookup name))

/-- Embedding of one `sync_databases` pass: iterate over the capture store's
tables; a table whose replication raises is caught by the per-table
`except`, logged, and skipped, after which the transaction still commits.
(The DNS-enrichment step only UPDATEs existing rows and is not modeled.) -/
def sync_databases (tableFails : String → Bool) (cap : Store) (ana : Store) :
    Store :=
  cap.foldl (fun a p => if tableFails p.1 then a else sync_table p.1 p.2 a) ana

/-- A pass with no replication errors. -/
def noFailure : String → Bool := fun _ => false

/-- Row count of a named table in a store (0 when the table is absent). -/
def rowCount (s : Store) (n : String) : Nat :=
  match s.lookup n with
  | none => 0
  | some t => t.rows.length

/-! ## Connection upserts (database_manager.add_packet) -/

/-- A row of the `connections` table, with the columns touched by
`add_packet`. -/
structure ConnRow where
  connection_key : String
  src_ip : String
  dst_ip : String
  src_port : Nat
  dst_port : Nat
  total_bytes : Nat
  packet_count : Nat
  timestamp : Nat
  is_rdp_client : Nat
deriving DecidableEq, Repr

/-- Embedding of `DatabaseManager.add_packet`: UPDATE the counters and
timestamp of the row with the given key; when no row matched
(`cursor.rowcount == 0`), INSERT a fresh row with `total_bytes = length` and
`packet_count = 1`. `now` models CURRENT_TIMESTAMP. -/
def add_packet (now : Nat) (tbl : List ConnRow) (key src dst : String)
    (srcPort dstPort length isRdp : Nat) : List ConnRow :=
  if tbl.any (fun r => r.connection_key = key) then
    tbl.map (fun r =>
      if r.connection_key = key then
        { r with
          total_bytes := r.total_bytes + length
          packet_count := r.packet_count + 1
          timestamp := now }
      else r)
  else
    tbl ++ [⟨key, src, dst, srcPort, dstPort, length, 1, now, isRdp⟩]

/-! ## Auxiliary definitions used by the statements below -/

/-- Dedup invariant of the alert pipeline for a fixed (ip, message) pair:
the pair occurs at most once in the queue and in the notifications, and not
at all while it is absent from the in-memory per-IP dedup set. -/
def DedupInv (st : PipelineState) (ip m : List Char) : Prop :=
  countPair st.alert_queue ip m ≤ 1 ∧ countPair st.notified ip m ≤ 1 ∧
  (m ∉ lookupSet st.alerts_by_ip ip →
    countPair st.alert_queue ip m = 0 ∧ countPair st.notified ip m = 0)

/-- A concrete two-table capture store used to exercise the sync pass. -/
def capW : Store :=
  [("alerts", ⟨true, [⟨1, 5, 0⟩]⟩), ("dns_queries", ⟨true, [⟨1, 6, 0⟩]⟩)]

/-- A failure pattern where replicating the `dns_queries` table raises. -/
def failsW : String → Bool := fun n => n == "dns_queries"

/-- A concrete three-table capture store exercising all three sync
strategies (incremental, arp full-replace, full copy). -/
def capI : Store :=
  [("alerts", ⟨true, [⟨1, 5, 0⟩]⟩),
   ("arp_data", ⟨true, [⟨1, 3, 0⟩]⟩),
   ("port_scan_timestamps", ⟨false, [⟨1, 2, 0⟩, ⟨2, 2, 1⟩]⟩)]

/-! # Theorems -/

/-! ## C4: connection upsert arithmetic (the store-level half of Scenario A) -/

/-- C4: at the level of `DatabaseManager.add_packet`, two packets for the
same connection key with lengths 100 and 200 yield exactly one connections
row for that key, with total_bytes = 300 and packet_count = 2: the first
call inserts the row, the second updates its counters. (The decode path
never reaches this code as shipped; see the analysis of the arity mismatch
in `process_packet_ek`.) -/
theorem add_packet_scenario_A :
    add_packet 2
      (add_packet 1 [] "10.0.0.1:1234->10.0.0.2:80" "10.0.0.1" "10.0.0.2"
        1234 80 100 0)
      "10.0.0.1:1234->10.0.0.2:80" "10.0.0.1" "10.0.0.2" 1234 80 200 0 =
      [⟨"10.0.0.1:1234->10.0.0.2:80", "10.0.0.1", "10.0.0.2",
        1234, 80, 300, 2, 2, 0⟩] := by
  decide

/-! ## C9: the decoder buffer is bounded -/

theorem length_bufAccum_le (f : List Char → Bool) (buffer line : List Char) :
    (bufAccum f buffer line).length ≤ buffer.length + line.length + 1 := by
  have hb1 : (buffer ++ line ++ ['\n']).length =
      buffer.length + line.length + 1 := by
    simp only [List.length_append, List.length_cons, List.length_nil]
  unfold bufAccum lastN
  split
  · split
    · simp only [List.length_drop]
      omega
    · omega
  · omega

theorem length_capture_step_le (f : List Char → Bool) (buffer line : List Char)
    (h : buffer.length ≤ 10000000) :
    (capture_packets_step f buffer line).length ≤ 10000000 := by
  unfold capture_packets_step
  split
  · exact h
  · split
    · simp
    · omega

theorem length_capture_buffer_le (f : List Char → Bool)
    (lines : List (List Char)) :
    (capture_packets_buffer f lines).length ≤ 10000000 := by
  suffices h : ∀ buffer : List Char, buffer.length ≤ 10000000 →
      (lines.foldl (capture_packets_step f) buffer).length ≤ 10000000 by
    exact h [] (by simp)
  induction lines with
  | nil => intro buffer hb; simpa using hb
  | cons l rest ih =>
    intro buffer hb
    exact ih _ (length_capture_step_le f buffer l hb)

/-- C9: the decoder's accumulation buffer is bounded. Whenever one
iteration's accumulated buffer exceeds the 10,000,000-character hard bound,
the buffer is reset to empty; consequently, after any prefix of the stream
the retained buffer never exceeds the bound, and the accumulated buffer
within the next iteration never exceeds the bound plus that iteration's line
(and its newline). This holds for every possible outcome of
`extract_ek_objects`, abstracted by `f`. -/
theorem capture_buffer_bounded (f : List Char → Bool)
    (lines : List (List Char)) (line : List Char) :
    (capture_packets_buffer f lines).length ≤ 10000000 ∧
    (bufAccum f (capture_packets_buffer f lines) line).length ≤
      10000000 + line.length + 1 ∧
    (line ≠ [] →
      10000000 < (bufAccum f (capture_packets_buffer f lines) line).length →
      capture_packets_step f (capture_packets_buffer f lines) line = []) := by
  refine ⟨length_capture_buffer_le f lines, ?_, ?_⟩
  · calc (bufAccum f (capture_packets_buffer f lines) line).length ≤
        (capture_packets_buffer f lines).length + line.length + 1 :=
          length_bufAccum_le f _ line
      _ ≤ 10000000 + line.length + 1 := by
          have := length_capture_buffer_le f lines
          omega
  · intro hline hbig
    unfold capture_packets_step
    rw [if_neg hline, if_pos hbig]

theorem bufAccum_constFalse (buffer line : List Char) :
    bufAccum (fun _ => false) buffer line = buffer ++ line ++ ['\n'] := by
  unfold bufAccum
  simp

theorem capture_step_keeps (f : List Char → Bool) (buffer line : List Char)
    (hline : line ≠ [])
    (hlen : ¬ 10000000 < (bufAccum f buffer line).length) :
    capture_packets_step f buffer line = bufAccum f buffer line := by
  unfold capture_packets_step
  rw [if_neg hline, if_neg hlen]

theorem replicate_big_ne_nil : List.replicate 9999999 'a' ≠ [] := by
  intro h
  have hl : (List.replicate 9999999 'a').length = 0 := by rw [h]; rfl
  rw [List.length_replicate] at hl
  exact absurd hl (by norm_num)

theorem capture_buffer_one_big_line : capture_packets_buffer (fun _ => false)
    [List.replicate 9999999 'a'] = List.replicate 9999999 'a' ++ ['\n'] := by
  have hsmall : ¬ 10000000 <
      (bufAccum (fun _ => false) [] (List.replicate 9999999 'a')).length := by
    rw [bufAccum_constFalse, List.nil_append, List.length_append,
      List.length_replicate]
    norm_num
  show List.foldl _ _ _ = _
  rw [List.foldl_cons, List.foldl_nil,
    capture_step_keeps _ _ _ replicate_big_ne_nil hsmall,
    bufAccum_constFalse, List.nil_append]

theorem capture_buffer_one_big_line_overflow : 10000000 <
    (bufAccum (fun _ => false)
      (capture_packets_buffer (fun _ => false)
        [List.replicate 9999999 'a']) ['b']).length := by
  rw [capture_buffer_one_big_line, bufAccum_constFalse, List.length_append,
    List.length_append, List.length_append, List.length_replicate]
  norm_num

/-- Witness for C9: a single line of 9,999,999 characters fills the buffer
to exactly the bound; the next two-character accumulation exceeds it and the
step resets the buffer to empty. -/
theorem capture_buffer_bounded_witness :
    (['b'] ≠ ([] : List Char)) ∧
    10000000 <
      (bufAccum (fun _ => false)
        (capture_packets_buffer (fun _ => false)
          [List.replicate 9999999 'a']) ['b']).length ∧
    capture_packets_step (fun _ => false)
      (capture_packets_buffer (fun _ => false) [List.replicate 9999999 'a'])
      ['b'] = [] :=
  ⟨by decide, capture_buffer_one_big_line_overflow,
    (capture_buffer_bounded (fun _ => false) [List.replicate 9999999 'a']
      ['b']).2.2 (by decide) capture_buffer_one_big_line_overflow⟩

/-! ## C1: the sync pass is not atomic across tables -/

/-- Counterexample for C1: with two tables in the capture store and a
replication failure on `dns_queries`, the pass still commits the rows of the
`alerts` table, so the analysis store is not left unchanged and rows of the
pass remain committed. -/
theorem sync_pass_not_atomic_cex :
    failsW "dns_queries" = true ∧
    "dns_queries" ∈ capW.map Prod.fst ∧
    (sync_databases failsW capW []).lookup "alerts" =
      some ⟨true, [⟨1, 5, 0⟩]⟩ ∧
    sync_databases failsW capW [] ≠ ([] : Store) := by
  decide

/-! ## C3: attribution of the offending IP in an alert text -/

/-- Counterexample for C3: an alert text with two addresses that contains
the word "VirusTotal" but neither of the two phrase patterns named by the
claim. The claim's default says the first address is attributed; the code
attributes the second. -/
theorem malicious_ip_attribution_cex :
    containsSub phraseConnFrom
      "VirusTotal flagged 1.2.3.4 connecting to 5.6.7.8".data = false ∧
    containsSub phraseFromMalicious
      "VirusTotal flagged 1.2.3.4 connecting to 5.6.7.8".data = false ∧
    findIPv4s "VirusTotal flagged 1.2.3.4 connecting to 5.6.7.8".data =
      ["1.2.3.4".data, "5.6.7.8".data] ∧
    identify_malicious_ip
      "VirusTotal flagged 1.2.3.4 connecting to 5.6.7.8".data =
      some "5.6.7.8".data ∧
    "5.6.7.8".data ≠ "1.2.3.4".data := by
  refine ⟨rfl, rfl, rfl, rfl, by decide⟩

/-- C3 (amended): with two or more extracted IPv4 addresses the attributed
address is: the second if the text contains "Malicious IP detected in
connection from"; else the first if it contains "from Malicious IP" or
"from suspicious IP"; else the second if it contains "VirusTotal"; else the
first address found. With exactly one extracted address, that address is
attributed. -/
theorem malicious_ip_attribution (al : List Char) :
    ((findIPv4s al).length = 1 →
      identify_malicious_ip al = (findIPv4s al)[0]?) ∧
    (2 ≤ (findIPv4s al).length →
      identify_malicious_ip al =
        (if containsSub phraseConnFrom al then (findIPv4s al)[1]?
         else if containsSub phraseFromMalicious al ||
                 containsSub phraseFromSuspicious al then (findIPv4s al)[0]?
         else if containsSub phraseVirusTotal al then (findIPv4s al)[1]?
         else (findIPv4s al)[0]?)) := by
  rcases h : findIPv4s al with _ | ⟨ip1, _ | ⟨ip2, rest⟩⟩
  · constructor
    · intro hl
      simp at hl
    · intro hl
      simp at hl
  · constructor
    · intro _
      unfold identify_malicious_ip
      simp [h]
    · intro hl
      simp at hl
  · constructor
    · intro hl
      simp at hl
    · intro _
      unfold identify_malicious_ip
      simp only [h]
      split <;> simp

/-- Witness for C3: the amended attribution applied to a two-address
VirusTotal alert and to a single-address alert. -/
theorem malicious_ip_attribution_witness :
    identify_malicious_ip
      "VirusTotal flagged 1.2.3.4 connecting to 5.6.7.8".data =
      some "5.6.7.8".data ∧
    identify_malicious_ip "Port scan from 9.9.9.9 detected".data =
      some "9.9.9.9".data := by
  constructor
  · have h := (malicious_ip_attribution
      "VirusTotal flagged 1.2.3.4 connecting to 5.6.7.8".data).2 (by decide)
    rw [h]
    decide
  · have h := (malicious_ip_attribution
      "Port scan from 9.9.9.9 detected".data).1 (by decide)
    rw [h]
    decide

/-! ## C7: in-memory alert dedup, and C8: false-positive suppression -/

theorem countPair_nil (ip m : List Char) : countPair [] ip m = 0 := rfl

theorem countPair_append (l : List (List Char × List Char × List Char))
    (e : List Char × List Char × List Char) (ip m : List Char) :
    countPair (l ++ [e]) ip m =
      countPair l ip m + (if e.1 = ip ∧ e.2.1 = m then 1 else 0) := by
  unfold countPair
  rw [List.filter_append, List.length_append]
  congr 1
  simp only [List.filter]
  split <;> rename_i hdec
  · simp only [List.length_cons, List.length_nil]
    rw [if_pos (of_decide_eq_true hdec)]
  · simp only [List.length_nil]
    rw [if_neg (of_decide_eq_false hdec)]

theorem lookupSet_filter_ne (mm : List (List Char × List (List Char)))
    (k k2 : List Char) (h : k2 ≠ k) :
    lookupSet (mm.filter (fun p => p.1 ≠ k)) k2 = lookupSet mm k2 := by
  induction mm with
  | nil => rfl
  | cons a rest ih =>
    by_cases hak : a.1 = k
    · have : (decide (a.1 ≠ k)) = false := by simp [hak]
      simp only [List.filter, this]
      rw [ih]
      have hak2 : ¬ a.1 = k2 := by rw [hak]; exact fun hh => h hh.symm
      obtain ⟨a1, a2⟩ := a
      simp only [lookupSet]
      rw [if_neg hak2]
    · have : (decide (a.1 ≠ k)) = true := by simp [hak]
      simp only [List.filter, this]
      obtain ⟨a1, a2⟩ := a
      simp only [lookupSet]
      by_cases ha2 : a1 = k2
      · rw [if_pos ha2, if_pos ha2]
      · rw [if_neg ha2, if_neg ha2, ih]

theorem lookupSet_insertSet (mm : List (List Char × List (List Char)))
    (k v k2 : List Char) :
    lookupSet (insertSet mm k v) k2 =
      if k = k2 then v :: lookupSet mm k else lookupSet mm k2 := by
  unfold insertSet
  simp only [lookupSet]
  by_cases hk : k = k2
  · rw [if_pos hk, if_pos hk]
  · rw [if_neg hk, if_neg hk, lookupSet_filter_ne]
    exact fun hh => hk hh.symm

theorem dedupInv_step (st : PipelineState) (e : PipelineEvent)
    (ip m : List Char) (h : DedupInv st ip m) :
    DedupInv (pipelineStep st e) ip m := by
  cases e with
  | mark ip0 =>
    simp only [pipelineStep, mark_as_false_positive]
    split
    · exact h
    · exact h
  | alert r t =>
    cases hid : identify_malicious_ip t with
    | none => simpa only [pipelineStep, analyze_traffic_step, hid] using h
    | some aip =>
      simp only [pipelineStep, analyze_traffic_step, hid]
      by_cases hfp : aip ∈ st.false_positives
      · rw [if_pos hfp]
        exact h
      · rw [if_neg hfp]
        by_cases hmem : t ∈ lookupSet st.alerts_by_ip aip
        · rw [if_pos hmem]
          exact h
        · rw [if_neg hmem]
          obtain ⟨hq, hn, h0⟩ := h
          by_cases hpair : aip = ip ∧ t = m
          · obtain ⟨rfl, rfl⟩ := hpair
            have h00 := h0 hmem
            refine ⟨?_, ?_, ?_⟩
            · rw [countPair_append, h00.1, if_pos ⟨rfl, rfl⟩]
            · split
              · rw [countPair_append, h00.2, if_pos ⟨rfl, rfl⟩]
              · rw [h00.2]
                omega
            · intro hnot
              refine absurd ?_ hnot
              rw [lookupSet_insertSet, if_pos rfl]
              exact List.mem_cons_self _ _
          · refine ⟨?_, ?_, ?_⟩
            · rw [countPair_append, if_neg hpair]
              simpa using hq
            · split
              · rw [countPair_append, if_neg hpair]
                simpa using hn
              · exact hn
            · intro hnot
              rw [lookupSet_insertSet] at hnot
              have hcounts : countPair st.alert_queue ip m = 0 ∧
                  countPair st.notified ip m = 0 := by
                by_cases haipip : aip = ip
                · rw [if_pos haipip] at hnot
                  subst haipip
                  exact h0 (fun hm => hnot (List.mem_cons_of_mem _ hm))
                · rw [if_neg haipip] at hnot
                  exact h0 hnot
              refine ⟨?_, ?_⟩
              · rw [countPair_append, if_neg hpair, hcounts.1]
              · split
                · rw [countPair_append, if_neg hpair, hcounts.2]
                · exact hcounts.2

theorem dedupInv_run (evs : List PipelineEvent) (st : PipelineState)
    (ip m : List Char) (h : DedupInv st ip m) :
    DedupInv (run_pipeline st evs) ip m := by
  induction evs generalizing st with
  | nil => exact h
  | cons e rest ih => exact ih _ (dedupInv_step st e ip m h)

/-- C7: for any sequence of pipeline events in one process lifetime
(starting from the empty in-memory state), at most one alert-queue entry and
at most one notification carry a given (ip, message) pair: the pair is
recorded in the per-IP dedup set on first processing and every later
identical occurrence is skipped. -/
theorem alert_dedup_at_most_once (evs : List PipelineEvent)
    (ip m : List Char) :
    countPair (run_pipeline initPipeline evs).alert_queue ip m ≤ 1 ∧
    countPair (run_pipeline initPipeline evs).notified ip m ≤ 1 := by
  have h0q : countPair initPipeline.alert_queue ip m = 0 := rfl
  have h0n : countPair initPipeline.notified ip m = 0 := rfl
  have h := dedupInv_run evs initPipeline ip m
    ⟨by rw [h0q]; exact Nat.zero_le 1, by rw [h0n]; exact Nat.zero_le 1,
     fun _ => ⟨h0q, h0n⟩⟩
  exact ⟨h.1, h.2.1⟩

theorem entriesForIp_append_ne (l : List (List Char × List Char × List Char))
    (e : List Char × List Char × List Char) (X : List Char)
    (h : ¬ e.1 = X) :
    entriesForIp (l ++ [e]) X = entriesForIp l X := by
  unfold entriesForIp
  rw [List.filter_append]
  have : List.filter (fun e => decide (e.1 = X)) [e] = [] := by
    simp [List.filter, h]
  rw [this, List.append_nil]

theorem fp_suppression_step (st : PipelineState) (e : PipelineEvent)
    (X : List Char) (hX : X ∈ st.false_positives) :
    entriesForIp (pipelineStep st e).alert_queue X =
      entriesForIp st.alert_queue X ∧
    entriesForIp (pipelineStep st e).notified X =
      entriesForIp st.notified X ∧
    X ∈ (pipelineStep st e).false_positives := by
  cases e with
  | mark ip0 =>
    simp only [pipelineStep, mark_as_false_positive]
    split
    · simp [hX]
    · simp [hX]
  | alert r t =>
    cases hid : identify_malicious_ip t with
    | none =>
      simp [pipelineStep, analyze_traffic_step, hid, hX]
    | some aip =>
      simp only [pipelineStep, analyze_traffic_step, hid]
      by_cases hfp : aip ∈ st.false_positives
      · rw [if_pos hfp]
        exact ⟨rfl, rfl, hX⟩
      · rw [if_neg hfp]
        by_cases hmem : t ∈ lookupSet st.alerts_by_ip aip
        · rw [if_pos hmem]
          exact ⟨rfl, rfl, hX⟩
        · rw [if_neg hmem]
          have hne : ¬ (aip, t, r).1 = X := fun hh => hfp (by
            simp only at hh
            rw [hh]
            exact hX)
          refine ⟨entriesForIp_append_ne _ _ _ hne, ?_, hX⟩
          split
          · exact entriesForIp_append_ne _ _ _ hne
          · rfl

/-- C8: once an address X is in the false-positive set, no later pipeline
step enqueues or notifies an alert attributed to X: over any sequence of
subsequent events the X-attributed entries of the queue and of the
notification log stay exactly as they were, and X stays marked. -/
theorem false_positive_suppression (st : PipelineState)
    (evs : List PipelineEvent) (X : List Char)
    (hX : X ∈ st.false_positives) :
    entriesForIp (run_pipeline st evs).alert_queue X =
      entriesForIp st.alert_queue X ∧
    entriesForIp (run_pipeline st evs).notified X =
      entriesForIp st.notified X ∧
    X ∈ (run_pipeline st evs).false_positives := by
  induction evs generalizing st with
  | nil => exact ⟨rfl, rfl, hX⟩
  | cons e rest ih =>
    obtain ⟨hq, hn, hf⟩ := fp_suppression_step st e X hX
    obtain ⟨ihq, ihn, ihf⟩ := ih (pipelineStep st e) hf
    exact ⟨ihq.trans hq, ihn.trans hn, ihf⟩

/-- Witness for C8: with "9.9.9.9" marked as a false positive, processing an
alert attributed to it leaves the queue and notifications unchanged. -/
theorem false_positive_suppression_witness :
    entriesForIp (run_pipeline ⟨["9.9.9.9".data], [], [], []⟩
        [.alert "rule".data "Malicious traffic from 9.9.9.9".data]).alert_queue
        "9.9.9.9".data =
      entriesForIp
        (PipelineState.mk ["9.9.9.9".data] [] [] []).alert_queue
        "9.9.9.9".data ∧
    entriesForIp (run_pipeline ⟨["9.9.9.9".data], [], [], []⟩
        [.alert "rule".data "Malicious traffic from 9.9.9.9".data]).notified
        "9.9.9.9".data =
      entriesForIp
        (PipelineState.mk ["9.9.9.9".data] [] [] []).notified
        "9.9.9.9".data ∧
    "9.9.9.9".data ∈ (run_pipeline ⟨["9.9.9.9".data], [], [], []⟩
        [.alert "rule".data
          "Malicious traffic from 9.9.9.9".data]).false_positives :=
  false_positive_suppression ⟨["9.9.9.9".data], [], [], []⟩
    [.alert "rule".data "Malicious traffic from 9.9.9.9".data]
    "9.9.9.9".data (by decide)

/-! ## Row-level lemmas about INSERT OR REPLACE and MAX(timestamp) -/

theorem mem_upsertRow {t : Table} {r x : Row} (h : x ∈ upsertRow t r) :
    x = r ∨ x ∈ t := by
  unfold upsertRow at h
  rcases List.mem_cons.1 h with h2 | h2
  · exact Or.inl h2
  · exact Or.inr (List.mem_of_mem_filter h2)

theorem mem_insertRows {t : Table} {rs : List Row} {x : Row}
    (h : x ∈ insertRows t rs) : x ∈ rs ∨ x ∈ t := by
  induction rs generalizing t with
  | nil => exact Or.inr h
  | cons a l ih =>
    rcases ih (t := upsertRow t a) h with h2 | h2
    · exact Or.inl (List.mem_cons_of_mem _ h2)
    · rcases mem_upsertRow h2 with h3 | h3
      · exact Or.inl (h3 ▸ List.mem_cons_self _ _)
      · exact Or.inr h3

theorem mem_insertRows_of_pk_not_mem {t : Table} {rs : List Row} {x : Row}
    (hx : x ∈ t) (h : x.pk ∉ rowPks rs) : x ∈ insertRows t rs := by
  induction rs generalizing t with
  | nil => exact hx
  | cons a l ih =>
    simp only [rowPks, List.map_cons, List.mem_cons, not_or] at h
    refine ih (t := upsertRow t a) ?_ h.2
    unfold upsertRow
    exact List.mem_cons_of_mem _
      (List.mem_filter.mpr ⟨hx, decide_eq_true h.1⟩)

theorem mem_insertRows_of_mem {t : Table} {rs : List Row} {x : Row}
    (hd : (rowPks rs).Nodup) (hx : x ∈ rs) : x ∈ insertRows t rs := by
  induction rs generalizing t with
  | nil => cases hx
  | cons a l ih =>
    simp only [rowPks, List.map_cons, List.nodup_cons] at hd
    rcases List.mem_cons.1 hx with rfl | hmem
    · show x ∈ insertRows (upsertRow t x) l
      refine mem_insertRows_of_pk_not_mem ?_ hd.1
      unfold upsertRow
      exact List.mem_cons_self _ _
    · exact ih hd.2 hmem

theorem pk_mem_upsertRow {t : Table} {r : Row} {a : Nat}
    (h : a ∈ rowPks t) : a ∈ rowPks (upsertRow t r) := by
  by_cases hra : a = r.pk
  · subst hra
    exact List.mem_map.mpr ⟨r, List.mem_cons_self _ _, rfl⟩
  · obtain ⟨x, hx, hxa⟩ := List.mem_map.1 h
    refine List.mem_map.mpr ⟨x, ?_, hxa⟩
    unfold upsertRow
    refine List.mem_cons_of_mem _ (List.mem_filter.mpr ⟨hx, ?_⟩)
    exact decide_eq_true (fun hh => hra (hxa ▸ hh ▸ rfl))

theorem pk_mem_insertRows_mono {t : Table} {rs : List Row} {a : Nat}
    (h : a ∈ rowPks t) : a ∈ rowPks (insertRows t rs) := by
  induction rs generalizing t with
  | nil => exact h
  | cons b l ih => exact ih (pk_mem_upsertRow h)

theorem pk_mem_insertRows_left {t : Table} {rs : List Row} {a : Nat}
    (h : a ∈ rowPks rs) : a ∈ rowPks (insertRows t rs) := by
  induction rs generalizing t with
  | nil => cases h
  | cons b l ih =>
    simp only [rowPks, List.map_cons, List.mem_cons] at h
    rcases h with rfl | h2
    · exact pk_mem_insertRows_mono (t := upsertRow t b)
        (List.mem_map.mpr ⟨b, List.mem_cons_self _ _, rfl⟩)
    · exact ih h2

theorem pk_mem_insertRows_iff {t : Table} {rs : List Row} {a : Nat} :
    a ∈ rowPks (insertRows t rs) ↔ a ∈ rowPks rs ∨ a ∈ rowPks t := by
  constructor
  · intro h
    obtain ⟨x, hx, hxa⟩ := List.mem_map.1 h
    rcases mem_insertRows hx with h2 | h2
    · exact Or.inl (List.mem_map.mpr ⟨x, h2, hxa⟩)
    · exact Or.inr (List.mem_map.mpr ⟨x, h2, hxa⟩)
  · rintro (h | h)
    · exact pk_mem_insertRows_left h
    · exact pk_mem_insertRows_mono h

theorem nodup_pks_filter (p : Row → Bool) {t : Table}
    (h : (rowPks t).Nodup) : (rowPks (t.filter p)).Nodup :=
  h.sublist ((List.filter_sublist t).map Row.pk)

theorem nodup_pks_upsertRow {t : Table} {r : Row}
    (h : (rowPks t).Nodup) : (rowPks (upsertRow t r)).Nodup := by
  unfold upsertRow
  simp only [rowPks, List.map_cons, List.nodup_cons]
  constructor
  · intro hmem
    obtain ⟨x, hx, hxa⟩ := List.mem_map.1 hmem
    have := of_decide_eq_true (List.mem_filter.1 hx).2
    exact this hxa
  · exact nodup_pks_filter _ h

theorem nodup_pks_insertRows {t : Table} {rs : List Row}
    (h : (rowPks t).Nodup) : (rowPks (insertRows t rs)).Nodup := by
  induction rs generalizing t with
  | nil => exact h
  | cons a l ih => exact ih (nodup_pks_upsertRow h)

theorem le_maxTs {t : Table} {r : Row} (h : r ∈ t) : r.ts ≤ maxTs t := by
  induction t with
  | nil => cases h
  | cons a l ih =>
    rcases List.mem_cons.1 h with rfl | h2
    · exact le_max_left _ _
    · exact le_trans (ih h2) (le_max_right _ _)

theorem maxTs_le {t : Table} {b : Nat} (h : ∀ r ∈ t, r.ts ≤ b) :
    maxTs t ≤ b := by
  induction t with
  | nil => exact Nat.zero_le b
  | cons a l ih =>
    exact max_le (h a (List.mem_cons_self _ _))
      (ih fun r hr => h r (List.mem_cons_of_mem _ hr))

theorem exists_mem_maxTs {t : Table} (h : t ≠ []) :
    ∃ r ∈ t, r.ts = maxTs t := by
  induction t with
  | nil => exact absurd rfl h
  | cons a l ih =>
    by_cases hl : l = []
    · subst hl
      exact ⟨a, List.mem_cons_self _ _, (Nat.max_zero a.ts).symm⟩
    · obtain ⟨r, hr, hre⟩ := ih hl
      by_cases hle : maxTs l ≤ a.ts
      · exact ⟨a, List.mem_cons_self _ _, (max_eq_left hle).symm⟩
      · refine ⟨r, List.mem_cons_of_mem _ hr, ?_⟩
        rw [hre]
        exact (max_eq_right (le_of_not_le hle)).symm

theorem ts_le_maxTs_sync {cap ana : Table} (hd : (rowPks cap).Nodup)
    {r : Row} (hr : r ∈ cap) :
    r.ts ≤ maxTs (insertRows ana (selectNewRows cap ana)) := by
  have hdsel : (rowPks (selectNewRows cap ana)).Nodup := nodup_pks_filter _ hd
  by_cases hgt : maxTs ana < r.ts
  · have hsel : r ∈ selectNewRows cap ana :=
      List.mem_filter.mpr ⟨hr, decide_eq_true hgt⟩
    exact le_maxTs (mem_insertRows_of_mem hdsel hsel)
  · have hler : r.ts ≤ maxTs ana := le_of_not_lt hgt
    by_cases hana : ana = []
    · subst hana
      exact le_trans hler (Nat.zero_le _)
    · obtain ⟨a, ha, hae⟩ := exists_mem_maxTs hana
      by_cases hpk : a.pk ∈ rowPks (selectNewRows cap ana)
      · obtain ⟨s, hs, _⟩ := List.mem_map.1 hpk
        have hsgt : maxTs ana < s.ts :=
          of_decide_eq_true (List.mem_filter.1 hs).2
        exact le_trans hler (le_trans (le_of_lt hsgt)
          (le_maxTs (mem_insertRows_of_mem hdsel hs)))
      · have hmem : a ∈ insertRows ana (selectNewRows cap ana) :=
          mem_insertRows_of_pk_not_mem ha hpk
        calc r.ts ≤ maxTs ana := hler
          _ = a.ts := hae.symm
          _ ≤ _ := le_maxTs hmem

theorem selectNewRows_after_sync {cap ana : Table}
    (hd : (rowPks cap).Nodup) :
    selectNewRows cap (insertRows ana (selectNewRows cap ana)) = [] := by
  refine List.filter_eq_nil_iff.mpr fun r hr => ?_
  simp only [decide_eq_true_eq, not_lt]
  exact ts_le_maxTs_sync hd hr

theorem selectNewRows_already {cap base : Table}
    (hd : (rowPks cap).Nodup) :
    selectNewRows cap (insertRows base cap) = [] := by
  refine List.filter_eq_nil_iff.mpr fun r hr => ?_
  simp only [decide_eq_true_eq, not_lt]
  exact le_maxTs (mem_insertRows_of_mem hd hr)

theorem length_eq_of_pks {l1 l2 : Table} (h1 : (rowPks l1).Nodup)
    (h2 : (rowPks l2).Nodup) (h : ∀ a, a ∈ rowPks l1 ↔ a ∈ rowPks l2) :
    l1.length = l2.length := by
  have hp : (rowPks l1).Perm (rowPks l2) :=
    (List.perm_ext_iff_of_nodup h1 h2).mpr h
  have hlen := hp.length_eq
  simpa [rowPks] using hlen

theorem insertRows_again_length {base cap : Table}
    (hb : (rowPks base).Nodup) :
    (insertRows (insertRows base cap) cap).length =
      (insertRows base cap).length := by
  have h1 : (rowPks (insertRows base cap)).Nodup := nodup_pks_insertRows hb
  have h2 : (rowPks (insertRows (insertRows base cap) cap)).Nodup :=
    nodup_pks_insertRows h1
  refine length_eq_of_pks h2 h1 fun a => ?_
  simp only [pk_mem_insertRows_iff]
  tauto

/-! ## Store-level lemmas about one sync pass -/

theorem lookup_filter_ne_store {s : Store} {n m : String} (h : m ≠ n) :
    (s.filter (fun p => p.1 ≠ n)).lookup m = s.lookup m := by
  induction s with
  | nil => rfl
  | cons a rest ih =>
    obtain ⟨a1, a2⟩ := a
    by_cases hk : a1 = n
    · have hd : (decide ((a1, a2).1 ≠ n)) = false := by simp [hk]
      simp only [List.filter, hd]
      rw [ih]
      have hma : (m == a1) = false := by
        rw [hk]
        exact beq_eq_false_iff_ne.mpr h
      simp [List.lookup, hma]
    · have hd : (decide ((a1, a2).1 ≠ n)) = true := by simp [hk]
      simp only [List.filter, hd]
      by_cases hma : m = a1
      · simp [List.lookup, hma]
      · have hmb : (m == a1) = false := beq_eq_false_iff_ne.mpr hma
        simp only [List.lookup, hmb]
        simpa using ih

theorem lookup_setTable_self (s : Store) (n : String) (t : STable) :
    (setTable s n t).lookup n = some t := by
  unfold setTable
  simp [List.lookup]

theorem lookup_setTable_ne (s : Store) (n : String) (t : STable)
    (m : String) (h : m ≠ n) :
    (setTable s n t).lookup m = s.lookup m := by
  unfold setTable
  have hmb : (m == n) = false := beq_eq_false_iff_ne.mpr h
  simp only [List.lookup, hmb]
  simpa using lookup_filter_ne_store h

theorem lookup_sync_table_ne (name : String) (capT : STable) (ana : Store)
    (m : String) (h : m ≠ name) :
    (sync_table name capT ana).lookup m = ana.lookup m :=
  lookup_setTable_ne ana name _ m h

theorem sync_lookup_not_mem (fails : String → Bool) :
    ∀ (cap ana : Store) (n : String), n ∉ cap.map Prod.fst →
    (sync_databases fails cap ana).lookup n = ana.lookup n := by
  intro cap
  induction cap with
  | nil => intro ana n _; rfl
  | cons p rest ih =>
    intro ana n h
    simp only [List.map_cons, List.mem_cons, not_or] at h
    have hfold : sync_databases fails (p :: rest) ana =
        sync_databases fails rest
          (if fails p.1 then ana else sync_table p.1 p.2 ana) := rfl
    rw [hfold, ih _ n h.2]
    split
    · rfl
    · exact lookup_sync_table_ne p.1 p.2 ana n h.1

theorem sync_lookup_of_mem (fails : String → Bool) :
    ∀ (cap ana : Store), (cap.map Prod.fst).Nodup →
    ∀ (n : String) (capT : STable), (n, capT) ∈ cap →
    (sync_databases fails cap ana).lookup n =
      if fails n then ana.lookup n
      else some (syncTableResult n capT (ana.lookup n)) := by
  intro cap
  induction cap with
  | nil => intro ana _ n capT hmem; cases hmem
  | cons p rest ih =>
    intro ana hn n capT hmem
    simp only [List.map_cons, List.nodup_cons] at hn
    have hfold : sync_databases fails (p :: rest) ana =
        sync_databases fails rest
          (if fails p.1 then ana else sync_table p.1 p.2 ana) := rfl
    rw [hfold]
    rcases List.mem_cons.1 hmem with heq | hmem2
    · cases heq
      rw [sync_lookup_not_mem fails rest _ n hn.1]
      by_cases hf : fails n
      · rw [if_pos hf, if_pos hf]
      · rw [if_neg hf, if_neg hf]
        exact lookup_setTable_self ana n _
    · have hne : n ≠ p.1 := by
        intro hh
        exact absurd (List.mem_map.mpr ⟨(n, capT), hmem2, hh.symm ▸ rfl⟩) hn.1
      rw [ih _ hn.2 n capT hmem2]
      have hstate : (if fails p.1 then ana
          else sync_table p.1 p.2 ana).lookup n = ana.lookup n := by
        split
        · rfl
        · exact lookup_sync_table_ne p.1 p.2 ana n hne
      rw [hstate]

/-! ## C1 (amended): per-table error isolation of the sync pass -/

/-- C1 (amended): a failure while replicating one table is caught by the
per-table `except` and does not abort or roll back the pass. For a pass over
capture tables with distinct names: a table whose replication fails (at its
start) keeps its previous destination content, every other capture table's
replicated result is committed, and tables not in the capture store are
untouched. Only a failure outside the per-table loop (e.g. on BEGIN or
COMMIT) abandons the whole pass. -/
theorem sync_pass_per_table_isolation (fails : String → Bool)
    (cap ana : Store) (hn : (cap.map Prod.fst).Nodup) :
    (∀ (n : String) (capT : STable), (n, capT) ∈ cap →
      (sync_databases fails cap ana).lookup n =
        if fails n then ana.lookup n
        else some (syncTableResult n capT (ana.lookup n))) ∧
    (∀ n : String, n ∉ cap.map Prod.fst →
      (sync_databases fails cap ana).lookup n = ana.lookup n) :=
  ⟨fun n capT hmem => sync_lookup_of_mem fails cap ana hn n capT hmem,
   fun n hnm => sync_lookup_not_mem fails cap ana n hnm⟩

/-- Witness for C1 (amended): on the concrete two-table store, the failed
`dns_queries` table stays absent from the analysis store while the `alerts`
table is committed. -/
theorem sync_pass_per_table_isolation_witness :
    (sync_databases failsW capW []).lookup "alerts" =
      some (syncTableResult "alerts" ⟨true, [⟨1, 5, 0⟩]⟩ none) ∧
    (sync_databases failsW capW []).lookup "dns_queries" =
      (([] : Store)).lookup "dns_queries" ∧
    (sync_databases failsW capW []).lookup "connections" =
      (([] : Store)).lookup "connections" := by
  have h := sync_pass_per_table_isolation failsW capW [] (by decide)
  refine ⟨?_, ?_, ?_⟩
  · have h1 := h.1 "alerts" ⟨true, [⟨1, 5, 0⟩]⟩ (by decide)
    rwa [if_neg (by decide)] at h1
  · have h2 := h.1 "dns_queries" ⟨true, [⟨1, 6, 0⟩]⟩ (by decide)
    rwa [if_pos (by decide)] at h2
  · exact h.2 "connections" (by decide)

/-! ## C2: incremental sync copies exactly the rows past the destination
high-water mark -/

/-- C2: for a timestamped capture table with primary-key-unique rows and an
existing destination table whose maximum timestamp is tk (with tk not ahead
of the capture store, as in the claim's scenario t1 < … < tN with cutoff
tk), the pass selects exactly the capture rows with timestamp > tk, and
after replication the destination's maximum timestamp equals the capture
table's maximum tN. -/
theorem sync_incremental_correct (capRows anaRows : Table) (tk : Nat)
    (hd : (rowPks capRows).Nodup) (_hne : anaRows ≠ [])
    (hmax : maxTs anaRows = tk) (hle : tk ≤ maxTs capRows) :
    selectNewRows capRows anaRows =
      capRows.filter (fun r => tk < r.ts) ∧
    maxTs (insertRows anaRows (selectNewRows capRows anaRows)) =
      maxTs capRows := by
  constructor
  · unfold selectNewRows
    rw [hmax]
  · apply le_antisymm
    · apply maxTs_le
      intro r hr
      rcases mem_insertRows hr with h | h
      · exact le_maxTs (List.mem_of_mem_filter h)
      · calc r.ts ≤ maxTs anaRows := le_maxTs h
          _ = tk := hmax
          _ ≤ maxTs capRows := hle
    · by_cases hcase : maxTs capRows ≤ tk
      · have heq : maxTs capRows = tk := le_antisymm hcase hle
        have hnil : selectNewRows capRows anaRows = [] := by
          refine List.filter_eq_nil_iff.mpr fun r hr => ?_
          simp only [decide_eq_true_eq, not_lt, hmax]
          calc tk = maxTs capRows := heq.symm
            _ ≥ r.ts := le_maxTs hr
        rw [hnil]
        show maxTs capRows ≤ maxTs anaRows
        rw [heq, hmax]
      · have hlt : tk < maxTs capRows := lt_of_not_le hcase
        have hcap : capRows ≠ [] := by
          intro hnil
          rw [hnil] at hlt
          exact absurd hlt (by simp [maxTs])
        obtain ⟨rmax, hrm, hrme⟩ := exists_mem_maxTs hcap
        have hsel : rmax ∈ selectNewRows capRows anaRows :=
          List.mem_filter.mpr ⟨hrm, decide_eq_true (by rw [hmax, hrme]; omega)⟩
        have hdsel : (rowPks (selectNewRows capRows anaRows)).Nodup :=
          nodup_pks_filter _ hd
        calc maxTs capRows = rmax.ts := hrme.symm
          _ ≤ _ := le_maxTs (mem_insertRows_of_mem hdsel hsel)

/-- Witness for C2: timestamps 5 < 8 < 9 in the capture table, destination
high-water mark 5: exactly the rows with timestamps 8 and 9 are selected and
the new destination maximum is 9. -/
theorem sync_incremental_correct_witness :
    selectNewRows [⟨1, 5, 0⟩, ⟨2, 8, 1⟩, ⟨3, 9, 2⟩] [⟨1, 5, 0⟩] =
      ([⟨1, 5, 0⟩, ⟨2, 8, 1⟩, ⟨3, 9, 2⟩] : Table).filter
        (fun r => 5 < r.ts) ∧
    maxTs (insertRows [⟨1, 5, 0⟩]
        (selectNewRows [⟨1, 5, 0⟩, ⟨2, 8, 1⟩, ⟨3, 9, 2⟩] [⟨1, 5, 0⟩])) =
      maxTs [⟨1, 5, 0⟩, ⟨2, 8, 1⟩, ⟨3, 9, 2⟩] :=
  sync_incremental_correct [⟨1, 5, 0⟩, ⟨2, 8, 1⟩, ⟨3, 9, 2⟩] [⟨1, 5, 0⟩] 5
    (by decide) (by decide) (by decide) (by decide)

/-! ## C6: a second sync pass with an unchanged capture store leaves all
row counts unchanged -/

theorem syncTableResult_again_length (n : String) (capT : STable)
    (old : Option STable) (hdcap : (rowPks capT.rows).Nodup)
    (hdold : ∀ t, old = some t → (rowPks t.rows).Nodup) :
    (syncTableResult n capT (some (syncTableResult n capT old))).rows.length =
      (syncTableResult n capT old).rows.length := by
  by_cases harp : n = "arp_data"
  · cases old with
    | none => simp [syncTableResult, harp]
    | some anaT => simp [syncTableResult, harp]
  · by_cases hts : capT.hasTimestamp = true
    · cases old with
      | none =>
        simp only [syncTableResult, if_neg harp, if_pos hts]
        rw [selectNewRows_already hdcap]
        rfl
      | some anaT =>
        simp only [syncTableResult, if_neg harp, if_pos hts]
        rw [selectNewRows_after_sync hdcap]
        rfl
    · cases old with
      | none =>
        simp only [syncTableResult, if_neg harp, if_neg hts]
        exact insertRows_again_length (by simp [rowPks])
      | some anaT =>
        simp only [syncTableResult, if_neg harp, if_neg hts]
        exact insertRows_again_length (hdold anaT rfl)

/-- C6: running a second sync pass when the capture store has not changed
leaves the row count of every table in the analysis store unchanged (given
the primary-key uniqueness that SQLite enforces in every table): timestamped
tables select nothing past the new high-water mark, `arp_data` is fully
replaced by the same rows, and full-copy tables re-replace rows by primary
key. -/
theorem sync_idempotent_rowcounts (cap ana : Store)
    (hnames : (cap.map Prod.fst).Nodup)
    (hcap : ∀ p ∈ cap, (rowPks p.2.rows).Nodup)
    (hana : ∀ (n : String) (t : STable), ana.lookup n = some t →
      (rowPks t.rows).Nodup)
    (n : String) :
    rowCount (sync_databases noFailure cap
      (sync_databases noFailure cap ana)) n =
      rowCount (sync_databases noFailure cap ana) n := by
  by_cases hmem : n ∈ cap.map Prod.fst
  · obtain ⟨p, hp, hp1⟩ := List.mem_map.1 hmem
    have hpmem : (n, p.2) ∈ cap := by
      have hpe : p = (n, p.2) := by
        rw [← hp1]
      rw [← hpe]
      exact hp
    have h1 := sync_lookup_of_mem noFailure cap ana hnames n p.2 hpmem
    have h2 := sync_lookup_of_mem noFailure cap
      (sync_databases noFailure cap ana) hnames n p.2 hpmem
    rw [if_neg (by simp [noFailure])] at h1 h2
    unfold rowCount
    rw [h1, h2, h1]
    exact syncTableResult_again_length n p.2 (ana.lookup n)
      (hcap (n, p.2) hpmem) (fun t ht => hana n t ht)
  · unfold rowCount
    rw [sync_lookup_not_mem noFailure cap _ n hmem]

/-- Witness for C6: a second pass over the concrete three-table store leaves
every row count unchanged. -/
theorem sync_idempotent_rowcounts_witness :
    rowCount (sync_databases noFailure capI
        (sync_databases noFailure capI [])) "alerts" =
      rowCount (sync_databases noFailure capI []) "alerts" ∧
    rowCount (sync_databases noFailure capI
        (sync_databases noFailure capI [])) "arp_data" =
      rowCount (sync_databases noFailure capI []) "arp_data" ∧
    rowCount (sync_databases noFailure capI
        (sync_databases noFailure capI [])) "port_scan_timestamps" =
      rowCount (sync_databases noFailure capI []) "port_scan_timestamps" :=
  ⟨sync_idempotent_rowcounts capI [] (by decide) (by decide)
      (fun n t ht => by cases ht) "alerts",
   sync_idempotent_rowcounts capI [] (by decide) (by decide)
      (fun n t ht => by cases ht) "arp_data",
   sync_idempotent_rowcounts capI [] (by decide) (by decide)
      (fun n t ht => by cases ht) "port_scan_timestamps"⟩

/-! ## Decimal digit facts for the port rendering and Python int() -/

theorem decDigitChar_isDec (m : Nat) : isDecDigitB (decDigitChar m) = true := by
  unfold decDigitChar
  rcases m with _ | _ | _ | _ | _ | _ | _ | _ | _ | m <;> rfl

theorem decDigitVal_decDigitChar (m : Nat) (h : m < 10) :
    decDigitVal (decDigitChar m) = m := by
  unfold decDigitChar
  interval_cases m <;> decide

theorem isDecDigit_props (c : Char) (h : isDecDigitB c = true) :
    c.isDigit = true ∧ c.isWhitespace = false ∧ c ≠ '_' ∧ c ≠ '-' ∧
    c ≠ '+' ∧ c ≠ ':' ∧ c ≠ '[' ∧ c ≠ ']' ∧ c ≠ '>' := by
  simp only [isDecDigitB, Bool.or_eq_true, decide_eq_true_eq] at h
  rcases h with ((((((((rfl | rfl) | rfl) | rfl) | rfl) | rfl) | rfl) |
    rfl) | rfl) | rfl <;> decide

theorem natToRevDigits_all (n : Nat) :
    ∀ c ∈ natToRevDigits n, isDecDigitB c = true := by
  induction n using Nat.strong_induction_on with
  | _ n ih =>
    intro c hc
    rw [natToRevDigits] at hc
    by_cases hn : n = 0
    · rw [dif_pos hn] at hc
      cases hc
    · rw [dif_neg hn] at hc
      rcases List.mem_cons.1 hc with rfl | hc2
      · exact decDigitChar_isDec _
      · exact ih (n / 10) (Nat.div_lt_self (Nat.pos_of_ne_zero hn)
          (by omega)) c hc2

theorem natToDec_all (n : Nat) : ∀ c ∈ natToDec n, isDecDigitB c = true := by
  intro c hc
  unfold natToDec at hc
  by_cases hn : n = 0
  · rw [if_pos hn] at hc
    rcases List.mem_cons.1 hc with rfl | hc2
    · decide
    · cases hc2
  · rw [if_neg hn] at hc
    exact natToRevDigits_all n c (List.mem_reverse.1 hc)

theorem natToDec_ne_nil (n : Nat) : natToDec n ≠ [] := by
  unfold natToDec
  by_cases hn : n = 0
  · rw [if_pos hn]
    exact List.cons_ne_nil _ _
  · rw [if_neg hn]
    intro h
    rw [List.reverse_eq_nil_iff, natToRevDigits, dif_neg hn] at h
    exact List.cons_ne_nil _ _ h

theorem foldr_natToRevDigits (n : Nat) :
    (natToRevDigits n).foldr (fun c acc => 10 * acc + decDigitVal c) 0 = n := by
  induction n using Nat.strong_induction_on with
  | _ n ih =>
    rw [natToRevDigits]
    by_cases hn : n = 0
    · rw [dif_pos hn, hn]
      rfl
    · rw [dif_neg hn]
      simp only [List.foldr_cons]
      rw [ih (n / 10) (Nat.div_lt_self (Nat.pos_of_ne_zero hn) (by omega)),
        decDigitVal_decDigitChar _ (Nat.mod_lt n (by omega))]
      omega

theorem decValue_natToDec (n : Nat) : decValue (natToDec n) = n := by
  unfold natToDec
  by_cases hn : n = 0
  · rw [if_pos hn, hn]
    decide
  · rw [if_neg hn]
    unfold decValue
    rw [List.foldl_reverse]
    have h := foldr_natToRevDigits n
    calc (natToRevDigits n).foldr
          (fun x y => 10 * y + decDigitVal x) 0
        = (natToRevDigits n).foldr (fun c acc => 10 * acc + decDigitVal c) 0 :=
          rfl
      _ = n := h

theorem dropWhile_eq_self_of_all {p : Char → Bool} {l : List Char}
    (h : ∀ c ∈ l, p c = false) : l.dropWhile p = l := by
  cases l with
  | nil => rfl
  | cons c rest =>
    rw [List.dropWhile_cons_of_neg]
    simp [h c (List.mem_cons_self _ _)]

theorem pyTrim_digits {cs : List Char}
    (h : ∀ c ∈ cs, isDecDigitB c = true) : pyTrim cs = cs := by
  unfold pyTrim
  rw [dropWhile_eq_self_of_all
    (fun c hc => (isDecDigit_props c (h c hc)).2.1)]
  rw [dropWhile_eq_self_of_all
    (fun c hc => (isDecDigit_props c (h c (List.mem_reverse.1 hc))).2.1)]
  exact List.reverse_reverse cs

theorem pyDigitsTail_all {cs : List Char}
    (h : ∀ c ∈ cs, isDecDigitB c = true) : pyDigitsTail cs = true := by
  induction cs with
  | nil => rfl
  | cons c rest ih =>
    have hp := isDecDigit_props c (h c (List.mem_cons_self _ _))
    unfold pyDigitsTail
    rw [if_neg hp.2.2.1]
    rw [hp.1, ih (fun x hx => h x (List.mem_cons_of_mem _ hx))]
    rfl

theorem filter_eq_self_of_all {p : Char → Bool} {l : List Char}
    (h : ∀ c ∈ l, p c = true) : l.filter p = l := by
  induction l with
  | nil => rfl
  | cons c rest ih =>
    rw [List.filter_cons_of_pos (h c (List.mem_cons_self _ _)),
      ih (fun x hx => h x (List.mem_cons_of_mem _ hx))]

theorem pyIntDigits_digits {cs : List Char} (hne : cs ≠ [])
    (h : ∀ c ∈ cs, isDecDigitB c = true) :
    pyIntDigits cs = some (decValue cs) := by
  cases cs with
  | nil => exact absurd rfl hne
  | cons c rest =>
    simp only [pyIntDigits]
    rw [(isDecDigit_props c (h c (List.mem_cons_self _ _))).1,
      pyDigitsTail_all (fun x hx => h x (List.mem_cons_of_mem _ hx))]
    rw [filter_eq_self_of_all
      (fun x hx => decide_eq_true (isDecDigit_props x (h x hx)).2.2.1)]
    rfl

theorem pyInt_natToDec (p : Nat) : pyInt? (natToDec p) = some (p : Int) := by
  rcases hd : natToDec p with _ | ⟨c, rest⟩
  · exact absurd hd (natToDec_ne_nil p)
  · have hc : isDecDigitB c = true :=
      natToDec_all p c (hd ▸ List.mem_cons_self _ _)
    have hprops := isDecDigit_props c hc
    have key : pyTrim (c :: rest) = c :: rest := by
      rw [← hd]
      exact pyTrim_digits (natToDec_all p)
    simp only [pyInt?, key]
    rw [if_neg hprops.2.2.2.1, if_neg hprops.2.2.2.2.1]
    rw [← hd, pyIntDigits_digits (natToDec_ne_nil p) (natToDec_all p),
      decValue_natToDec]
    rfl

/-! ## Splitting on the arrow separator -/

theorem splitArrow_arrow_head (ys : List Char) :
    splitArrow ('-' :: '>' :: ys) = [] :: splitArrow ys := by
  simp only [splitArrow]
  simp

theorem splitArrow_append (xs ys : List Char) (h : hasArrow xs = false) :
    splitArrow (xs ++ '-' :: '>' :: ys) = xs :: splitArrow ys := by
  induction xs with
  | nil => exact splitArrow_arrow_head ys
  | cons x xs ih =>
    rcases xs with _ | ⟨y, xs2⟩
    · show splitArrow (x :: '-' :: '>' :: ys) = [x] :: splitArrow ys
      simp only [splitArrow]
      rw [if_neg (fun hh => by exact absurd hh.2 (by decide))]
      simp [consHead]
    · simp only [hasArrow, Bool.or_eq_false_iff] at h
      show splitArrow (x :: y :: (xs2 ++ '-' :: '>' :: ys)) = _
      simp only [splitArrow]
      rw [if_neg (fun hh => by
        rw [hh.1, hh.2] at h
        exact absurd h.1 (by decide))]
      rw [show (y :: (xs2 ++ '-' :: '>' :: ys)) =
        ((y :: xs2) ++ '-' :: '>' :: ys) from rfl, ih h.2]
      rfl

theorem splitArrow_no_arrow (cs : List Char) (h : hasArrow cs = false) :
    splitArrow cs = [cs] := by
  induction cs with
  | nil => rfl
  | cons x xs ih =>
    rcases xs with _ | ⟨y, xs2⟩
    · rfl
    · simp only [hasArrow, Bool.or_eq_false_iff] at h
      simp only [splitArrow]
      rw [if_neg (fun hh => by
        rw [hh.1, hh.2] at h
        exact absurd h.1 (by decide))]
      rw [ih h.2]
      rfl

theorem no_dash_no_arrow (cs : List Char) (h : ∀ c ∈ cs, c ≠ '-') :
    hasArrow cs = false := by
  induction cs with
  | nil => rfl
  | cons x xs ih =>
    rcases xs with _ | ⟨y, xs2⟩
    · rfl
    · simp only [hasArrow]
      rw [ih (fun c hc => h c (List.mem_cons_of_mem _ hc))]
      have hx : ¬ x = '-' := h x (List.mem_cons_self _ _)
      simp [hx]

/-! ## Facts about hasChar, pyFind, and the key-part parsers -/

theorem hasChar_append (c : Char) (xs ys : List Char) :
    hasChar c (xs ++ ys) = (hasChar c xs || hasChar c ys) := by
  induction xs with
  | nil => rfl
  | cons x rest ih =>
    show (decide (x = c) || hasChar c (rest ++ ys)) = _
    rw [ih]
    show _ = ((decide (x = c) || hasChar c rest) || hasChar c ys)
    rw [Bool.or_assoc]

theorem hasChar_false_of (c : Char) (l : List Char)
    (h : ∀ x ∈ l, x ≠ c) : hasChar c l = false := by
  induction l with
  | nil => rfl
  | cons x rest ih =>
    show (decide (x = c) || hasChar c rest) = false
    rw [ih (fun y hy => h y (List.mem_cons_of_mem _ hy))]
    simp [h x (List.mem_cons_self _ _)]

theorem hasChar_of_mem {c : Char} {l : List Char} (h : c ∈ l) :
    hasChar c l = true := by
  induction l with
  | nil => cases h
  | cons x rest ih =>
    show (decide (x = c) || hasChar c rest) = true
    rcases List.mem_cons.1 h with rfl | h2
    · simp
    · rw [ih h2]
      simp

theorem pyFind_append_first (c : Char) (xs zs : List Char)
    (h : ∀ x ∈ xs, x ≠ c) : pyFind c (xs ++ c :: zs) = xs.length := by
  induction xs with
  | nil =>
    show pyFind c (c :: zs) = 0
    simp [pyFind]
  | cons x rest ih =>
    show pyFind c (x :: (rest ++ c :: zs)) = rest.length + 1
    simp only [pyFind]
    rw [if_neg (h x (List.mem_cons_self _ _)),
      ih (fun y hy => h y (List.mem_cons_of_mem _ hy))]

theorem drop_length_append (xs ys : List Char) :
    (xs ++ ys).drop xs.length = ys := List.drop_left xs ys

theorem parseKeyPart_bracket (ip ds : List Char)
    (hip : ∀ c ∈ ip, c ≠ ']') :
    parseKeyPart ('[' :: (ip ++ ']' :: ':' :: ds)) = some (ip, ds) := by
  have hbr1 : hasChar '[' ('[' :: (ip ++ ']' :: ':' :: ds)) = true := by
    show (decide ('[' = '[') || _) = true
    simp
  have hbr2 : hasChar ']' ('[' :: (ip ++ ']' :: ':' :: ds)) = true := by
    show (decide ('[' = ']') || hasChar ']' (ip ++ ']' :: ':' :: ds)) = true
    rw [hasChar_append]
    have h2 : hasChar ']' (']' :: ':' :: ds) = true := by
      show (decide (']' = ']') || _) = true
      simp
    rw [h2]
    simp
  have hfind1 : pyFind '[' ('[' :: (ip ++ ']' :: ':' :: ds)) = 0 := by
    simp [pyFind]
  have hfind2 : pyFind ']' ('[' :: (ip ++ ']' :: ':' :: ds)) =
      ip.length + 1 := by
    simp only [pyFind]
    rw [if_neg (by decide), pyFind_append_first ']' ip (':' :: ds) hip]
  have htake : ('[' :: (ip ++ ']' :: ':' :: ds)).take (ip.length + 1) =
      '[' :: ip := by
    rw [List.take_succ_cons, List.take_left]
  have hdrop : ('[' :: (ip ++ ']' :: ':' :: ds)).drop (ip.length + 1 + 2) =
      ds := by
    have hform : '[' :: (ip ++ ']' :: ':' :: ds) =
        ('[' :: ip ++ [']', ':']) ++ ds := by
      simp
    have hlen : ('[' :: ip ++ [']', ':']).length = ip.length + 1 + 2 := by
      simp only [List.cons_append, List.length_cons, List.length_append,
        List.length_nil]
    rw [hform, ← hlen, drop_length_append]
  have hcond : (true && true) = true := rfl
  unfold parseKeyPart
  rw [hbr1, hbr2, if_pos hcond, hfind1, hfind2]
  unfold pySlice
  rw [htake, hdrop]
  rfl

theorem dropWhile_append_all (p : Char → Bool) (xs ys : List Char)
    (h : ∀ x ∈ xs, p x = true) :
    (xs ++ ys).dropWhile p = ys.dropWhile p := by
  induction xs with
  | nil => rfl
  | cons x rest ih =>
    rw [List.cons_append, List.dropWhile_cons_of_pos
      (h x (List.mem_cons_self _ _)),
      ih (fun y hy => h y (List.mem_cons_of_mem _ hy))]

theorem takeWhile_append_stop (p : Char → Bool) (xs ys : List Char)
    (y : Char) (h : ∀ x ∈ xs, p x = true) (hy : p y = false) :
    (xs ++ y :: ys).takeWhile p = xs := by
  induction xs with
  | nil =>
    show (y :: ys).takeWhile p = []
    rw [List.takeWhile_cons_of_neg]
    simp [hy]
  | cons x rest ih =>
    rw [List.cons_append, List.takeWhile_cons_of_pos
      (h x (List.mem_cons_self _ _)),
      ih (fun z hz => h z (List.mem_cons_of_mem _ hz))]

theorem parseKeyPart_plain (ip ds : List Char)
    (hip : ∀ c ∈ ip, c ≠ '[')
    (hds1 : ∀ c ∈ ds, c ≠ '[') (hds2 : ∀ c ∈ ds, c ≠ ':') :
    parseKeyPart (ip ++ ':' :: ds) = some (ip, ds) := by
  have hbr : hasChar '[' (ip ++ ':' :: ds) = false := by
    rw [hasChar_append, hasChar_false_of _ _ hip]
    have h2 : hasChar '[' (':' :: ds) = false := by
      show (decide (':' = '[') || hasChar '[' ds) = false
      rw [hasChar_false_of _ _ hds1]
      simp
    rw [h2]
    rfl
  have hrev : (ip ++ ':' :: ds).reverse = ds.reverse ++ ':' :: ip.reverse := by
    simp
  have hall : ∀ x ∈ ds.reverse, (fun c => decide (c ≠ ':')) x = true :=
    fun x hx => decide_eq_true (hds2 x (List.mem_reverse.1 hx))
  unfold parseKeyPart
  rw [hbr, Bool.false_and, if_neg (by simp)]
  simp only [rsplitColon]
  rw [hrev, dropWhile_append_all _ _ _ hall,
    List.dropWhile_cons_of_neg (by simp),
    takeWhile_append_stop _ _ _ ':' hall (by simp)]
  simp

/-! ## C5: connection keys round-trip for both address families -/

theorem isIpChar_ne (c : Char) (h : isIpChar c = true) :
    c ≠ '[' ∧ c ≠ ']' ∧ c ≠ '-' ∧ c ≠ '>' := by
  refine ⟨?_, ?_, ?_, ?_⟩ <;>
    (intro heq; subst heq; exact absurd h (by decide))

theorem keyPart_no_dash (ip : List Char) (port : Nat)
    (h : ∀ c ∈ ip, isIpChar c = true) :
    ∀ c ∈ keyPart ip port, c ≠ '-' := by
  intro c hc
  unfold keyPart at hc
  split at hc
  · simp only [List.mem_cons, List.mem_append] at hc
    rcases hc with rfl | (hin | (rfl | (rfl | hds)))
    · decide
    · exact (isIpChar_ne c (h c hin)).2.2.1
    · decide
    · decide
    · exact (isDecDigit_props c (natToDec_all port c hds)).2.2.2.1
  · simp only [List.mem_append, List.mem_cons] at hc
    rcases hc with hin | (rfl | hds)
    · exact (isIpChar_ne c (h c hin)).2.2.1
    · decide
    · exact (isDecDigit_props c (natToDec_all port c hds)).2.2.2.1

theorem parseKeyPart_keyPart (ip : List Char) (port : Nat)
    (h : ∀ c ∈ ip, isIpChar c = true) :
    parseKeyPart (keyPart ip port) = some (ip, natToDec port) := by
  unfold keyPart
  split
  · exact parseKeyPart_bracket ip (natToDec port)
      (fun c hc => (isIpChar_ne c (h c hc)).2.1)
  · exact parseKeyPart_plain ip (natToDec port)
      (fun c hc => (isIpChar_ne c (h c hc)).1)
      (fun c hc =>
        (isDecDigit_props c (natToDec_all port c hc)).2.2.2.2.2.2.1)
      (fun c hc =>
        (isDecDigit_props c (natToDec_all port c hc)).2.2.2.2.2.1)

/-- C5: for valid addresses of either family and any ports, parsing the
canonical key built by `create_connection_key` recovers exactly the original
quadruple (source IP, destination IP, source port, destination port). -/
theorem connection_key_roundtrip (srcIp dstIp : List Char)
    (srcPort dstPort : Nat) (h1 : validIp srcIp) (h2 : validIp dstIp) :
    parse_connection_key (create_connection_key srcIp dstIp srcPort dstPort) =
      some (srcIp, dstIp, (srcPort : Int), (dstPort : Int)) := by
  obtain ⟨-, h1c⟩ := h1
  obtain ⟨-, h2c⟩ := h2
  have hsplit : splitArrow
      (create_connection_key srcIp dstIp srcPort dstPort) =
      [keyPart srcIp srcPort, keyPart dstIp dstPort] := by
    unfold create_connection_key
    rw [splitArrow_append _ _
        (no_dash_no_arrow _ (keyPart_no_dash _ _ h1c)),
      splitArrow_no_arrow _ (no_dash_no_arrow _ (keyPart_no_dash _ _ h2c))]
  simp only [parse_connection_key, hsplit, parseKeyPart_keyPart _ _ h1c,
    parseKeyPart_keyPart _ _ h2c, pyInt_natToDec]

/-- Witness for C5: a concrete IPv4 round trip and a concrete IPv6 round
trip. -/
theorem connection_key_roundtrip_witness :
    validIp "192.168.1.10".data ∧ validIp "fe80::12ab".data ∧
    parse_connection_key (create_connection_key "192.168.1.10".data
        "10.0.0.3".data 443 51234) =
      some ("192.168.1.10".data, "10.0.0.3".data, 443, 51234) ∧
    parse_connection_key (create_connection_key "fe80::12ab".data
        "2001:db8::2".data 8080 443) =
      some ("fe80::12ab".data, "2001:db8::2".data, 8080, 443) :=
  ⟨⟨by decide, by decide⟩, ⟨by decide, by decide⟩,
   connection_key_roundtrip _ _ _ _ ⟨by decide, by decide⟩
     ⟨by decide, by decide⟩,
   connection_key_roundtrip _ _ _ _ ⟨by decide, by decide⟩
     ⟨by decide, by decide⟩⟩

/-! ## C10: parse_connection_key is total and defaults ports to 0 -/

/-- C10: `parse_connection_key` is total (every exception path of the source
is a caught path of the embedding): a key that does not split into exactly a
source part and a destination part yields the sentinel `none`, and a
well-formed key whose port substring fails Python `int()` yields the two IPs
with both ports 0. -/
theorem parse_key_error_handling
    (key srcPart dstPart srcIp srcPortStr dstIp dstPortStr : List Char) :
    ((splitArrow key).length ≠ 2 → parse_connection_key key = none) ∧
    (hasArrow srcPart = false → hasArrow dstPart = false →
      parseKeyPart srcPart = some (srcIp, srcPortStr) →
      parseKeyPart dstPart = some (dstIp, dstPortStr) →
      (pyInt? srcPortStr = none ∨ pyInt? dstPortStr = none) →
      parse_connection_key (srcPart ++ '-' :: '>' :: dstPart) =
        some (srcIp, dstIp, 0, 0)) := by
  constructor
  · intro hlen
    rcases hsp : splitArrow key with _ | ⟨a, _ | ⟨b, _ | ⟨c, t⟩⟩⟩
    · simp [parse_connection_key, hsp]
    · simp [parse_connection_key, hsp]
    · rw [hsp] at hlen
      simp at hlen
    · simp [parse_connection_key, hsp]
  · intro h1 h2 hp1 hp2 hdisj
    have hsplit : splitArrow (srcPart ++ '-' :: '>' :: dstPart) =
        [srcPart, dstPart] := by
      rw [splitArrow_append _ _ h1, splitArrow_no_arrow _ h2]
    rcases hdisj with hnone | hnone
    · cases hq : pyInt? dstPortStr <;>
        simp [parse_connection_key, hsplit, hp1, hp2, hnone, hq]
    · cases hq : pyInt? srcPortStr <;>
        simp [parse_connection_key, hsplit, hp1, hp2, hnone, hq]

/-- Witness for C10: an arrow-free string yields the sentinel, and a key
with an unparsable source port yields both IPs with ports 0 (even though the
destination port would parse). -/
theorem parse_key_error_handling_witness :
    parse_connection_key "abc".data = none ∧
    parse_connection_key
        ("1.2.3.4:abc".data ++ '-' :: '>' :: "5.6.7.8:9".data) =
      some ("1.2.3.4".data, "5.6.7.8".data, 0, 0) :=
  ⟨(parse_key_error_handling "abc".data [] [] [] [] [] []).1 (by decide),
   (parse_key_error_handling [] "1.2.3.4:abc".data "5.6.7.8:9".data
      "1.2.3.4".data "abc".data "5.6.7.8".data "9".data).2 (by decide)
      (by decide) (by decide) (by decide) (Or.inl (by decide))⟩

end Traffic
